import Mathlib

/-!
Verification development for the Chasement bytecode interpreter
(src/chasement/src/lib.rs, src/chasement/src/instructions/base.rs,
src/chasement/src/instructions/arithmetic.rs).

The Rust code is shallowly embedded: machine integers become Nat/Int with
explicit wrapping where the source wraps, overflow-checked arithmetic
(plain `+=`, `*`, `+` on usize/i64, which panics on overflow in builds with
overflow checks) is modelled by an explicit panic outcome, and the loops of
the source are modelled with an explicit fuel parameter.
-/

namespace Chasement

/-- 2 ^ 64, the number of usize values: usize::MAX + 1. -/
def USIZE : Nat := 18446744073709551616

/-- i64::MIN. -/
def I64MIN : Int := -9223372036854775808

/-- i64::MAX. -/
def I64MAX : Int := 9223372036854775807

/-- i32::MIN (the nesting counters of the bracket scans are inferred
i32). -/
def I32MIN : Int := -2147483648

/-- i32::MAX. -/
def I32MAX : Int := 2147483647

/-- `pc.wrapping_add(1)` on usize, as used by the interpreter loop
(Vm::run_op in lib.rs). -/
def wrapAdd1 (pc : Nat) : Nat := (pc + 1) % USIZE

/-- `pc.wrapping_sub(1)` on usize, as used by Context::prev and by the
jump instruction. -/
def wrapSub1 (pc : Nat) : Nat := if pc = 0 then USIZE - 1 else pc - 1

/-- `i as usize` for an i64 value: two complement reinterpretation,
i.e. the representative of i modulo 2 ^ 64. -/
def usizeOfInt (i : Int) : Nat := (i % (USIZE : Int)).toNat

/-- `pc as i64` (used by the cur_pc instruction): two complement
reinterpretation of a usize value as i64. -/
def i64OfUsize (pc : Nat) : Int :=
  if pc < 9223372036854775808 then (pc : Int) else (pc : Int) - (USIZE : Int)

/-- NaN test on an IEEE 754 double given by its bit pattern: exponent all
ones and nonzero mantissa. -/
def f64IsNaN (bits : Nat) : Bool := (bits / 2 ^ 52) % 2 ^ 11 == 2047 && bits % 2 ^ 52 != 0

/-- Zero test (+0.0 or -0.0) on an IEEE 754 double given by its bit
pattern: all bits other than the sign bit are zero. -/
def f64IsZero (bits : Nat) : Bool := bits % 2 ^ 63 == 0

/-- `==` on f64 (PartialEq as used by the derived PartialEq of Data):
false whenever an operand is NaN, and +0.0 == -0.0. -/
def f64Eq (a b : Nat) : Bool :=
  !(f64IsNaN a) && !(f64IsNaN b) && (a == b || (f64IsZero a && f64IsZero b))

/-- The Data enum of lib.rs. Int carries an i64 (the interpreter only ever
constructs in-range values); Char carries the unicode scalar value; Float
carries the IEEE 754 bit pattern of the f64 payload. -/
inductive Data where
  | Int : Int → Data
  | Bool : Bool → Data
  | Char : Nat → Data
  | Str : String → Data
  | Float : Nat → Data
deriving DecidableEq

/-- The derived `PartialEq` of Data: same variant and equal payloads,
where the Float payloads are compared with f64 `==`. -/
def dataEq : Data → Data → Bool
  | .Int a, .Int b => a == b
  | .Bool a, .Bool b => a == b
  | .Char a, .Char b => a == b
  | .Str a, .Str b => a == b
  | .Float a, .Float b => f64Eq a b
  | _, _ => false

/-- Whether two Data values carry the same variant tag. -/
def sameTag : Data → Data → Bool
  | .Int _, .Int _ => true
  | .Bool _, .Bool _ => true
  | .Char _, .Char _ => true
  | .Str _, .Str _ => true
  | .Float _, .Float _ => true
  | _, _ => false

/-- Whether a Data value is the Int variant (the jump instruction pattern
matches on it). -/
def isInt : Data → Bool
  | .Int _ => true
  | _ => false

/-- The Display impl of Data: each payload rendered directly with no type
annotation. The precise decimal rendering of Float is out of scope of the
spec (section 1) and is not exercised by any claim; the bit pattern is
rendered as a placeholder. -/
def displayData : Data → String
  | .Int i => toString i
  | .Bool b => if b then "true" else "false"
  | .Char c => String.mk [Char.ofNat c]
  | .Str s => s
  | .Float bits => toString bits

/-- The derived Debug rendering of Data, used only by the diagnostic
print_stack instruction (not exercised by any claim); quoting and escaping
of Char and Str payloads is approximated. -/
def debugData : Data → String
  | .Int i => "Int(" ++ toString i ++ ")"
  | .Bool b => "Bool(" ++ (if b then "true" else "false") ++ ")"
  | .Char c => "Char(" ++ String.mk [Char.ofNat c] ++ ")"
  | .Str s => "Str(" ++ s ++ ")"
  | .Float bits => "Float(" ++ toString bits ++ ")"

/-- Program storage lookup: `opcode_at(idx)`, bounds checked, absent past
the end (the `&[u8]` / `Vec<u8>` impls of ProgramStorage in lib.rs). -/
def opcode_at (program : List Nat) (idx : Nat) : Option Nat := program[idx]?

/-- The execution Context of lib.rs: value stack (head = top), auxiliary
stack, program counter and program. The stdin and out fields model the
process input and output streams so that the input and print instructions
stay pure: stdin holds the bytes not yet read, out the bytes written so
far. -/
structure Ctx where
  stack : List Data
  auxiliary_stack : List Data
  pc : Nat
  program : List Nat
  stdin : List Nat
  out : String
deriving DecidableEq

/-- `Context::pop`: remove and return the top of the main stack. -/
def Ctx.popV : Ctx → Option (Data × Ctx)
  | c =>
    match c.stack with
    | [] => none
    | d :: rest => some (d, { c with stack := rest })

/-- `Context::top`. -/
def Ctx.topV (c : Ctx) : Option Data := c.stack.head?

/-- `Context::aux_top`. -/
def Ctx.aux_top (c : Ctx) : Option Data := c.auxiliary_stack.head?

/-- `Context::push`. -/
def Ctx.pushV (c : Ctx) (d : Data) : Ctx := { c with stack := d :: c.stack }

/-- `Context::set_pc`. -/
def Ctx.set_pc (c : Ctx) (pc : Nat) : Ctx := { c with pc := pc }

/-- `Context::advance`: the source is `self.pc += 1`, plain (overflow
checked) addition — the wrapping variant is commented out there. In builds
with overflow checks the addition panics at usize::MAX; none models that
panic. -/
def Ctx.advance (c : Ctx) : Option Ctx :=
  if c.pc + 1 < USIZE then some { c with pc := c.pc + 1 } else none

/-- `Context::prev`: `self.pc = self.pc.wrapping_sub(1)`. -/
def Ctx.prev (c : Ctx) : Ctx := { c with pc := wrapSub1 c.pc }

/-- `Context::cur_byte`: program lookup at the current pc. -/
def Ctx.cur_byte (c : Ctx) : Option Nat := opcode_at c.program c.pc

/-- `Context::to_auxiliary`: pop main, push auxiliary; no-op when main is
empty. -/
def Ctx.to_auxiliary (c : Ctx) : Ctx :=
  match c.popV with
  | some (v, c') => { c' with auxiliary_stack := v :: c'.auxiliary_stack }
  | none => c

/-- `Context::to_main`: pop auxiliary, push main; no-op when auxiliary is
empty. -/
def Ctx.to_main (c : Ctx) : Ctx :=
  match c.auxiliary_stack with
  | v :: rest => { c with auxiliary_stack := rest, stack := v :: c.stack }
  | [] => c

/-- Outcome of one instruction invocation. next is a normal return with
the mutated context; fatal is `error(..)` (message printed to stderr, then
process exit with status 1); exit0 is `std::process::exit(0)`; panicked is
a Rust panic (Option::unwrap on None, or overflow of checked arithmetic);
fuelout is a model-only marker that the fuel given to a loop ran out. -/
inductive Step where
  | next : Ctx → Step
  | fatal : Step
  | exit0 : Step
  | panicked : Step
  | fuelout : Step
deriving DecidableEq

/-- (' ', newline, ')') nop instruction. -/
def nop (c : Ctx) : Step := .next c

/-- Result of an in-instruction scanning loop: the final pc (plus the
parsed number for the digit instruction is carried separately), a panic,
or fuel exhaustion. -/
inductive ScanRes where
  | done : Nat → ScanRes
  | panicked : ScanRes
  | fuelout : ScanRes
deriving DecidableEq

/-- The comment instruction loop: advance until a '#' (35) or newline (10)
or the end of the program. -/
def commentLoop (program : List Nat) : Nat → Nat → ScanRes
  | 0, _ => .fuelout
  | fuel + 1, pc =>
    match opcode_at program pc with
    | none => .done pc
    | some ch =>
      if ch == 35 || ch == 10 then .done pc
      else if pc + 1 < USIZE then commentLoop program fuel (pc + 1) else .panicked

/-- ('#') comment instruction of base.rs. -/
def comment (c : Ctx) : Step :=
  match c.advance with
  | none => .panicked
  | some c1 =>
    match commentLoop c1.program (c1.program.length + 2) c1.pc with
    | .done pc => .next { c1 with pc := pc }
    | .panicked => .panicked
    | .fuelout => .fuelout

/-- Result of the digit instruction loop: final pc and accumulated number,
a panic, or fuel exhaustion. -/
inductive DigitRes where
  | done : Nat → Int → DigitRes
  | panicked : DigitRes
  | fuelout : DigitRes
deriving DecidableEq

/-- The digit instruction loop of base.rs: on a digit byte, accumulate
`num = num * 10 + digit` (overflow-checked i64 arithmetic); on a non-digit
byte, step pc back and break; when the byte lookup is absent the loop body
does nothing and the loop keeps advancing (this mirrors the source, whose
`if let Some` has no else branch). -/
def digitLoop (program : List Nat) : Nat → Nat → Int → DigitRes
  | 0, _, _ => .fuelout
  | fuel + 1, pc, num =>
    match opcode_at program pc with
    | some d =>
      if 58 ≤ d ∨ d < 48 then .done (wrapSub1 pc) num
      else
        let m := num * 10
        if m < I64MIN ∨ I64MAX < m then .panicked
        else
          let n2 := m + ((d : Int) - 48)
          if n2 < I64MIN ∨ I64MAX < n2 then .panicked
          else if pc + 1 < USIZE then digitLoop program fuel (pc + 1) n2 else .panicked
    | none => if pc + 1 < USIZE then digitLoop program fuel pc.succ num else .panicked

/-- ('0'-'9') digit instruction of base.rs: parse a run of digits, then
push the accumulated value as Int. -/
def digit (c : Ctx) : Step :=
  match digitLoop c.program (c.program.length + 2) c.pc 0 with
  | .done pc num => .next (({ c with pc := pc }).pushV (.Int num))
  | .panicked => .panicked
  | .fuelout => .fuelout

/-- ('a') auxiliary_push instruction. -/
def auxiliary_push (c : Ctx) : Step := .next c.to_auxiliary

/-- ('m') main_push instruction. -/
def main_push (c : Ctx) : Step := .next c.to_main

/-- ('p') print instruction: pop and write the Display form of the popped
value; fatal on an empty stack. -/
def print (c : Ctx) : Step :=
  match c.popV with
  | some (v, c') => .next { c' with out := c'.out ++ displayData v }
  | none => .fatal

/-- ('d') dup instruction: clone the top of the stack; fatal when empty. -/
def dup (c : Ctx) : Step :=
  match c.topV with
  | some v => .next (c.pushV v)
  | none => .fatal

/-- ('e') empty instruction: push whether the main stack is empty. -/
def empty (c : Ctx) : Step := .next (c.pushV (.Bool c.topV.isNone))

/-- ('z') aux_empty instruction: push whether the auxiliary stack is
empty. -/
def aux_empty (c : Ctx) : Step := .next (c.pushV (.Bool c.aux_top.isNone))

/-- ('j') jump instruction: pop; on Int i set pc to (i as usize) minus one
with wraparound; fatal on an empty stack or a non-Int value. -/
def jump (c : Ctx) : Step :=
  match c.popV with
  | some (.Int i, c') => .next (c'.set_pc (wrapSub1 (usizeOfInt i)))
  | some _ => .fatal
  | none => .fatal

/-- ('s') skip_if instruction: pop; on Bool true advance once more, on
Bool false do nothing; fatal otherwise. -/
def skip_if (c : Ctx) : Step :=
  match c.popV with
  | some (.Bool true, c') =>
    match c'.advance with
    | some c'' => .next c''
    | none => .panicked
  | some (.Bool false, c') => .next c'
  | some _ => .fatal
  | none => .fatal

/-- ('!') not instruction: logical negation of a Bool, bitwise complement
of an Int (two complement: !i = -i - 1); fatal otherwise. -/
def notI (c : Ctx) : Step :=
  match c.popV with
  | some (.Bool b, c') => .next (c'.pushV (.Bool (!b)))
  | some (.Int i, c') => .next (c'.pushV (.Int (-i - 1)))
  | some _ => .fatal
  | none => .fatal

/-- The two pops `(ctx.pop(), ctx.pop())` performed by plus, eq and swap:
both pops happen before the match. -/
def pop2 (c : Ctx) : Option Data × Option Data × Ctx :=
  match c.popV with
  | none => (none, none, c)
  | some (a, c1) =>
    match c1.popV with
    | none => (some a, none, c1)
    | some (b, c2) => (some a, some b, c2)

/-- ('+') plus instruction of arithmetic.rs: pop two, both must be Int,
push the (overflow-checked) sum; fatal on any other combination. -/
def plus (c : Ctx) : Step :=
  match pop2 c with
  | (some (.Int a), some (.Int b), c2) =>
    if a + b < I64MIN ∨ I64MAX < a + b then .panicked
    else .next (c2.pushV (.Int (a + b)))
  | _ => .fatal

/-- ('=') eq instruction: pop two, push the Bool of their structural
(PartialEq) equality; fatal when fewer than two values are available. -/
def eq (c : Ctx) : Step :=
  match pop2 c with
  | (some a, some b, c2) => .next (c2.pushV (.Bool (dataEq a b)))
  | _ => .fatal

/-- ('w') swap instruction: pop a then b, push a then b back; fatal when
fewer than two values are available. -/
def swap (c : Ctx) : Step :=
  match pop2 c with
  | (some a, some b, c2) => .next ((c2.pushV a).pushV b)
  | _ => .fatal

/-- ('o') drop instruction: pop and discard; no-op when empty. -/
def dropI (c : Ctx) : Step :=
  match c.popV with
  | some (_, c') => .next c'
  | none => .next c

/-- ('x') exit instruction: `std::process::exit(0)`. -/
def exitI (_c : Ctx) : Step := .exit0

/-- ('h') print_stack instruction: diagnostic dump of both stacks, top to
bottom. -/
def print_stack (c : Ctx) : Step :=
  let dump :=
    "Main: [\n" ++ String.join (c.stack.map (fun v => "    " ++ debugData v ++ ",\n"))
      ++ "]\n" ++ "Aux: [\n"
      ++ String.join (c.auxiliary_stack.map (fun v => "    " ++ debugData v ++ ",\n"))
      ++ "]\n"
  .next { c with out := c.out ++ dump }

/-- (',') input instruction: read exactly one byte from stdin and push it
as Char; `Read::read` on an exhausted stream reports 0 bytes read leaving
the zero-initialized buffer, so a 0 byte is pushed at end of input. -/
def input (c : Ctx) : Step :=
  match c.stdin with
  | b :: rest => .next (({ c with stdin := rest }).pushV (.Char b))
  | [] => .next (c.pushV (.Char 0))

/-- (''') charify instruction of base.rs: advance and read the next byte;
a backslash (92) starts an escape sequence, whose selector byte is read
with `ctx.cur_byte().unwrap()` — the unwrap panics when absent; only the
escape n (110) is valid, any other selector is fatal; a missing byte right
after the quote is fatal. -/
def charify (c : Ctx) : Step :=
  match c.advance with
  | none => .panicked
  | some c1 =>
    match c1.cur_byte with
    | some b =>
      if b == 92 then
        match c1.advance with
        | none => .panicked
        | some c2 =>
          match c2.cur_byte with
          | none => .panicked
          | some b2 => if b2 == 110 then .next (c2.pushV (.Char 10)) else .fatal
      else .next (c1.pushV (.Char b))
    | none => .fatal

/-- ('[') cur_pc instruction: push the current pc as Int. -/
def cur_pc (c : Ctx) : Step := .next (c.pushV (.Int (i64OfUsize c.pc)))

/-- The backward scan loop of the jump_back instruction (']') of base.rs:
while a byte is present, stop one position before a '[' (91) seen with
counter exactly 1; otherwise a '[' decrements and a ']' (93) increments
the counter, and pc steps back with wraparound. The counter is an
inferred i32 (`let mut cnt = 0`); its `cnt -= 1` and `cnt += 1` are
overflow-checked arithmetic that panics outside the i32 range in checked
builds, modelled by the explicit range tests around each update. -/
def jumpBackLoop (program : List Nat) : Nat → Nat → Int → ScanRes
  | 0, _, _ => .fuelout
  | fuel + 1, pc, cnt =>
    match opcode_at program pc with
    | none => .done pc
    | some b =>
      if b == 91 && cnt == 1 then .done (wrapSub1 pc)
      else if b == 91 then
        if cnt - 1 < I32MIN then .panicked
        else jumpBackLoop program fuel (wrapSub1 pc) (cnt - 1)
      else if b == 93 then
        if I32MAX < cnt + 1 then .panicked
        else jumpBackLoop program fuel (wrapSub1 pc) (cnt + 1)
      else jumpBackLoop program fuel (wrapSub1 pc) cnt

/-- (']') jump_back instruction. The source loop needs at most pc + 2
byte lookups before the scan runs off the front of the program (pc down
to 0, then the wrapped position usize::MAX, which is past the end of any
program), so fuel pc + 2 is always sufficient. -/
def jump_back (c : Ctx) : Step :=
  match jumpBackLoop c.program (c.pc + 2) c.pc 0 with
  | .done pc => .next { c with pc := pc }
  | .panicked => .panicked
  | .fuelout => .fuelout

/-- The forward scan loop of the paren_open instruction ('('): stop at a
')' (41) seen with counter exactly 1; otherwise ')' decrements and '('
(40) increments the counter, and pc advances (checked addition). -/
def parenLoop (program : List Nat) : Nat → Nat → Int → ScanRes
  | 0, _, _ => .fuelout
  | fuel + 1, pc, cnt =>
    match opcode_at program pc with
    | none => .done pc
    | some b =>
      if b == 41 && cnt == 1 then .done pc
      else
        let cnt' := if b == 41 then cnt - 1 else if b == 40 then cnt + 1 else cnt
        if pc + 1 < USIZE then parenLoop program fuel (pc + 1) cnt' else .panicked

/-- ('(') paren_open instruction. -/
def paren_open (c : Ctx) : Step :=
  match parenLoop c.program (c.program.length + 2) c.pc 0 with
  | .done pc => .next { c with pc := pc }
  | .panicked => .panicked
  | .fuelout => .fuelout

/-- The instruction table built by add_base_instructions (base.rs)
together with the arithmetic registration of '+' to plus (arithmetic.rs;
the registration of the plus opcode alongside the base group appears in
src/src/main.rs of the repository). -/
def instrFor (op : Nat) : Option (Ctx → Step) :=
  match op with
  | 33 => some notI
  | 35 => some comment
  | 44 => some input
  | 39 => some charify
  | 32 => some nop
  | 10 => some nop
  | 97 => some auxiliary_push
  | 100 => some dup
  | 101 => some empty
  | 102 => some (fun c => .next (c.pushV (.Bool false)))
  | 104 => some print_stack
  | 106 => some jump
  | 109 => some main_push
  | 111 => some dropI
  | 112 => some print
  | 115 => some skip_if
  | 116 => some (fun c => .next (c.pushV (.Bool true)))
  | 119 => some swap
  | 120 => some exitI
  | 122 => some aux_empty
  | 48 | 49 | 50 | 51 | 52 | 53 | 54 | 55 | 56 | 57 => some digit
  | 61 => some eq
  | 91 => some cur_pc
  | 93 => some jump_back
  | 40 => some paren_open
  | 41 => some nop
  | 43 => some plus
  | _ => none

/-- `Vm::run_op` of lib.rs: look the opcode up (a missing binding is a
panic), run the instruction, then `pc = pc.wrapping_add(1)`. -/
def run_op (c : Ctx) (op : Nat) : Step :=
  match instrFor op with
  | none => .panicked
  | some instr =>
    match instr c with
    | .next c' => .next { c' with pc := wrapAdd1 c'.pc }
    | s => s

/-- Final outcome of `Vm::run`: halted is normal termination (no byte at
the current pc); the other outcomes mirror Step. -/
inductive Outcome where
  | halted : Ctx → Outcome
  | fatal : Outcome
  | exit0 : Outcome
  | panicked : Outcome
  | fuelout : Outcome
deriving DecidableEq

/-- `Vm::run` of lib.rs with a fuel bound on the number of
fetch-dispatch-advance steps. -/
def runFuel : Nat → Ctx → Outcome
  | 0, _ => .fuelout
  | fuel + 1, c =>
    match opcode_at c.program c.pc with
    | none => .halted c
    | some op =>
      match run_op c op with
      | .next c' => runFuel fuel c'
      | .fatal => .fatal
      | .exit0 => .exit0
      | .panicked => .panicked
      | .fuelout => .fuelout

/-- Fresh context for a program, as built by Context::new: empty stacks,
pc 0. -/
def initCtx (program : List Nat) (stdin : List Nat) : Ctx :=
  { stack := [], auxiliary_stack := [], pc := 0, program := program,
    stdin := stdin, out := "" }

/-- Decimal digit bytes of a natural number (auxiliary, fuel-guarded). -/
def decBytesAux : Nat → Nat → List Nat
  | 0, _ => []
  | fuel + 1, n =>
    if n < 10 then [48 + n] else decBytesAux fuel (n / 10) ++ [48 + n % 10]

/-- The ASCII bytes of the decimal representation of a natural number. -/
def decBytes (n : Nat) : List Nat := decBytesAux (n + 1) n

/-- Properly nested bracket structure of a byte list, indexed by its
maximum bracket nesting depth: the bytes other than '[' (91) and ']'
(93) are arbitrary and every bracket is matched, with correct
nesting. -/
inductive Balanced : List Nat → Nat → Prop where
  | nil : Balanced [] 0
  | one : ∀ b : Nat, b ≠ 91 → b ≠ 93 → Balanced [b] 0
  | pair : ∀ {xs : List Nat} {d : Nat}, Balanced xs d → Balanced (91 :: (xs ++ [93])) (d + 1)
  | append : ∀ {xs ys : List Nat} {d₁ d₂ : Nat},
      Balanced xs d₁ → Balanced ys d₂ → Balanced (xs ++ ys) (max d₁ d₂)

/-- Whether the jump_back scan stop condition (byte '[' with counter
exactly 1) holds at a position. -/
def hitAt (program : List Nat) (pc : Nat) (cnt : Int) : Bool :=
  match opcode_at program pc with
  | some b => b == 91 && cnt == 1
  | none => false

/-- Counter update of the jump_back scan at a position. -/
def stepCnt (program : List Nat) (pc : Nat) (cnt : Int) : Int :=
  match opcode_at program pc with
  | some b => if b == 91 then cnt - 1 else if b == 93 then cnt + 1 else cnt
  | none => cnt

/-- The jump_back scan from pc down to position 0 never meets its stop
condition. -/
def noHit (program : List Nat) : Nat → Int → Bool
  | 0, cnt => !(hitAt program 0 cnt)
  | pc + 1, cnt => !(hitAt program (pc + 1) cnt) && noHit program pc (stepCnt program (pc + 1) cnt)

/-! ## Helper lemmas -/

lemma wrap_roundtrip (n : Nat) (h : n < USIZE) : wrapAdd1 (wrapSub1 n) = n := by
  simp only [wrapAdd1, wrapSub1, USIZE] at *
  split <;> omega

lemma usizeOfInt_lt (i : Int) : usizeOfInt i < USIZE := by
  unfold usizeOfInt
  have h1 : 0 ≤ i % (USIZE : Int) := Int.emod_nonneg i (by norm_num [USIZE])
  have h2 : i % (USIZE : Int) < (USIZE : Int) := Int.emod_lt_of_pos i (by norm_num [USIZE])
  omega

lemma opcode_at_append (pre mid rest : List Nat) (k : Nat) (hk : k < mid.length) :
    opcode_at (pre ++ mid ++ rest) (pre.length + k) = mid[k]? := by
  unfold opcode_at
  rw [List.append_assoc, List.getElem?_append_right (by omega)]
  have hidx : pre.length + k - pre.length = k := by omega
  rw [hidx, List.getElem?_append]
  rw [if_pos hk]

/-! ## Claim theorems -/

/-- Abbreviation for building a Context with every field given. -/
def mkCtx (stack aux : List Data) (pc : Nat) (prog inp : List Nat) (o : String) : Ctx :=
  { stack := stack, auxiliary_stack := aux, pc := pc, program := prog, stdin := inp, out := o }

/-- C3: the spec demands that all pc arithmetic wrap (advance at the
maximum address yields 0, prev at 0 yields the maximum); in the code prev
does wrap as claimed, but advance is plain checked `+=`, which at
usize::MAX panics (modelled as none) instead of wrapping to 0 in builds
with overflow checks; at any other pc it adds one. -/
theorem c3_pc_wraparound :
    Ctx.advance (mkCtx [] [] (USIZE - 1) [] [] "") = none
    ∧ (Ctx.prev (mkCtx [] [] 0 [] [] "")).pc = USIZE - 1
    ∧ Ctx.advance (mkCtx [] [] 41 [] [] "") = some (mkCtx [] [] 42 [] [] "") := by
  refine ⟨?_, ?_, ?_⟩ <;> decide

/-- C7: with b on top and a second, the swap instruction leaves a on top
and b second, preserving everything below the two as well as the
auxiliary stack and the pc; with one or zero values it is a fatal
error. -/
theorem c7_swap_inverts_top_two :
    (∀ (a b : Data) (rest aux : List Data) (pc : Nat) (prog inp : List Nat) (o : String),
      swap (mkCtx (b :: a :: rest) aux pc prog inp o) = .next (mkCtx (a :: b :: rest) aux pc prog inp o))
    ∧ (∀ (v : Data) (aux : List Data) (pc : Nat) (prog inp : List Nat) (o : String),
      swap (mkCtx [v] aux pc prog inp o) = .fatal)
    ∧ (∀ (aux : List Data) (pc : Nat) (prog inp : List Nat) (o : String),
      swap (mkCtx [] aux pc prog inp o) = .fatal) :=
  ⟨fun _ _ _ _ _ _ _ _ => rfl, fun _ _ _ _ _ _ => rfl, fun _ _ _ _ _ => rfl⟩

/-- C8: eq pops two values and pushes the Bool of their structural
(PartialEq) equality; values with different variant tags always compare
unequal; with fewer than two values eq is a fatal error. -/
theorem c8_eq_structural :
    (∀ (a b : Data) (rest aux : List Data) (pc : Nat) (prog inp : List Nat) (o : String),
      eq (mkCtx (a :: b :: rest) aux pc prog inp o) = .next (mkCtx (.Bool (dataEq a b) :: rest) aux pc prog inp o))
    ∧ (∀ a b : Data, sameTag a b = false → dataEq a b = false)
    ∧ (∀ (v : Data) (aux : List Data) (pc : Nat) (prog inp : List Nat) (o : String),
      eq (mkCtx [v] aux pc prog inp o) = .fatal)
    ∧ (∀ (aux : List Data) (pc : Nat) (prog inp : List Nat) (o : String),
      eq (mkCtx [] aux pc prog inp o) = .fatal) := by
  refine ⟨fun _ _ _ _ _ _ _ _ => rfl, ?_, fun _ _ _ _ _ _ => rfl, fun _ _ _ _ _ => rfl⟩
  intro a b h
  cases a <;> cases b <;> simp_all [sameTag, dataEq]

/-- Witness for c8_eq_structural at concrete inputs: an Int/Int pair
pushes true, an Int/Bool pair has different tags and compares false, and
a one-element stack is fatal. -/
theorem c8_eq_structural_witness :
    eq (mkCtx [.Int 1, .Int 1] [] 0 [] [] "") = .next (mkCtx [.Bool true] [] 0 [] [] "")
    ∧ dataEq (.Int 0) (.Bool true) = false
    ∧ eq (mkCtx [.Int 1] [] 0 [] [] "") = .fatal :=
  ⟨c8_eq_structural.1 (.Int 1) (.Int 1) [] [] 0 [] [] "",
   c8_eq_structural.2.1 (.Int 0) (.Bool true) rfl,
   c8_eq_structural.2.2.1 (.Int 1) [] 0 [] [] ""⟩

/-- C6: the jump instruction pops the top value; on Int i it sets pc to
(i as usize) minus one with wraparound, so that after the trailing
wrapping increment of Vm::run_op the next fetch is exactly at address
(i as usize); on an empty stack or a non-Int top it is a fatal error
(the dispatched opcode 106 is the letter j). -/
theorem c6_jump_targets_address :
    (∀ (i : Int) (st aux : List Data) (pc : Nat) (prog inp : List Nat) (o : String),
      run_op (mkCtx (.Int i :: st) aux pc prog inp o) 106 = .next (mkCtx st aux (usizeOfInt i) prog inp o))
    ∧ (∀ (v : Data) (st aux : List Data) (pc : Nat) (prog inp : List Nat) (o : String),
      isInt v = false → run_op (mkCtx (v :: st) aux pc prog inp o) 106 = .fatal)
    ∧ (∀ (aux : List Data) (pc : Nat) (prog inp : List Nat) (o : String),
      run_op (mkCtx [] aux pc prog inp o) 106 = .fatal) := by
  refine ⟨?_, ?_, fun _ _ _ _ _ => rfl⟩
  · intro i st aux pc prog inp o
    show Step.next (mkCtx st aux (wrapAdd1 (wrapSub1 (usizeOfInt i))) prog inp o) = _
    rw [wrap_roundtrip _ (usizeOfInt_lt i)]
  · intro v st aux pc prog inp o h
    cases v <;> first | rfl | simp_all [isInt]

/-- Witness for c6_jump_targets_address: popping Int 5 resumes the fetch
at address 5, and the two fatal cases at concrete stacks. -/
theorem c6_jump_targets_address_witness :
    run_op (mkCtx [.Int 5] [] 0 [] [] "") 106 = .next (mkCtx [] [] (usizeOfInt 5) [] [] "")
    ∧ usizeOfInt 5 = 5
    ∧ run_op (mkCtx [.Bool true] [] 0 [] [] "") 106 = .fatal
    ∧ run_op (mkCtx [] [] 0 [] [] "") 106 = .fatal :=
  ⟨c6_jump_targets_address.1 5 [] [] 0 [] [] "", by decide,
   c6_jump_targets_address.2.1 (.Bool true) [] [] 0 [] [] "" rfl,
   c6_jump_targets_address.2.2 [] 0 [] [] ""⟩

/-- C10: when the byte after a quote instruction is a backslash and that
backslash is the last byte of the program, charify panics on the unwrap
of the absent escape-selector byte: it neither pushes a value nor reports
one of the documented fatal errors. -/
theorem c10_charify_dangling_backslash :
    ∀ (prog : List Nat) (pc : Nat) (st aux : List Data) (inp : List Nat) (o : String),
      opcode_at prog pc = some 39 →
      opcode_at prog (pc + 1) = some 92 →
      prog.length = pc + 2 →
      pc + 2 < USIZE →
      charify (mkCtx st aux pc prog inp o) = .panicked := by
  intro prog pc st aux inp o h39 h92 hlen hlt
  have hend : opcode_at prog (pc + 2) = none := by
    unfold opcode_at
    exact List.getElem?_eq_none (by omega)
  unfold charify Ctx.advance Ctx.cur_byte
  simp only [mkCtx]
  rw [if_pos (by omega : pc + 1 < USIZE)]
  simp only [h92]
  rw [if_pos (show ((92 : Nat) == 92) = true from rfl)]
  rw [if_pos (show pc + 1 + 1 < USIZE by omega)]
  simp only [show pc + 1 + 1 = pc + 2 by omega, hend]

/-- Witness for c10_charify_dangling_backslash: the two-byte program
consisting of a quote then a backslash. -/
theorem c10_charify_dangling_backslash_witness :
    charify (mkCtx [] [] 0 [39, 92] [] "") = .panicked :=
  c10_charify_dangling_backslash [39, 92] 0 [] [] [] "" rfl rfl rfl (by decide)

/-- C2 counterexample: on the four-byte program "23+p" the digit
instruction parses the maximal run "23" as the single literal 23, so the
plus instruction finds only one value on the stack and the interpreter
aborts fatally — it does not terminate normally and writes no output. -/
theorem c2_counterexample :
    runFuel 10 (initCtx [50, 51, 43, 112] []) = .fatal
    ∧ decide (runFuel 10 (initCtx [50, 51, 43, 112] [])
        = .halted (mkCtx [] [] 4 [50, 51, 43, 112] [] "5")) = false := by
  refine ⟨by decide, by decide⟩

/-- C2 amended: with the two digit runs separated by a no-op space — the
five-byte program "2 3+p" — the interpreter pushes 2, then 3, adds, and
prints, terminating normally with exactly the output "5". -/
theorem c2_add_and_print :
    runFuel 10 (initCtx [50, 32, 51, 43, 112] [])
      = .halted (mkCtx [] [] 5 [50, 32, 51, 43, 112] [] "5") := by
  decide

/-- Decimal accumulation over a list of digit bytes, exactly as the digit
instruction accumulates: num = num * 10 + (d - 48) for each byte. -/
def digitVal (num : Int) (ds : List Nat) : Int :=
  ds.foldl (fun n d => n * 10 + ((d : Nat) - 48 : Nat)) num

lemma digitVal_nil (num : Int) : digitVal num [] = num := rfl

lemma digitVal_cons (num : Int) (d : Nat) (rest : List Nat) :
    digitVal num (d :: rest) = digitVal (num * 10 + ((d - 48 : Nat) : Int)) rest := rfl

lemma digitVal_ge :
    ∀ (ds : List Nat) (num : Int), 0 ≤ num → num ≤ digitVal num ds ∧ 0 ≤ digitVal num ds := by
  intro ds
  induction ds with
  | nil => intro num h; rw [digitVal_nil]; omega
  | cons d rest ih =>
    intro num h
    rw [digitVal_cons]
    have h2 : (0 : Int) ≤ num * 10 + ((d - 48 : Nat) : Int) := by omega
    have := ih (num * 10 + ((d - 48 : Nat) : Int)) h2
    omega

/-- Running the digit instruction loop across a list of digit bytes whose
accumulated value stays within i64 range, followed by a non-digit byte:
the loop consumes exactly the digits, accumulates their value, and stops
one position before the terminator. -/
lemma digitLoop_run :
    ∀ (ds front : List Nat) (b : Nat) (tail : List Nat) (num : Int) (fuel : Nat),
      (∀ d ∈ ds, 48 ≤ d ∧ d < 58) →
      (58 ≤ b ∨ b < 48) →
      0 ≤ num →
      digitVal num ds ≤ I64MAX →
      front.length + ds.length < USIZE →
      ds.length + 1 ≤ fuel →
      digitLoop (front ++ ds ++ b :: tail) fuel front.length num
        = .done (wrapSub1 (front.length + ds.length)) (digitVal num ds) := by
  intro ds
  induction ds with
  | nil =>
    intro front b tail num fuel _ hb hnum _ _ hfuel
    obtain ⟨f, rfl⟩ : ∃ f, fuel = f + 1 := ⟨fuel - 1, by omega⟩
    simp only [List.append_nil, List.length_nil, Nat.add_zero, digitVal_nil]
    have hbyte : opcode_at (front ++ b :: tail) front.length = some b := by
      unfold opcode_at
      rw [List.getElem?_append_right (le_refl _)]
      simp
    simp only [digitLoop, hbyte, if_pos hb]
  | cons d rest ih =>
    intro front b tail num fuel hds hb hnum hmax hlen hfuel
    obtain ⟨f, rfl⟩ : ∃ f, fuel = f + 1 := ⟨fuel - 1, by omega⟩
    have hd : 48 ≤ d ∧ d < 58 := hds d (List.mem_cons_self d rest)
    have hbyte : opcode_at (front ++ (d :: rest) ++ b :: tail) front.length = some d := by
      have := opcode_at_append front (d :: rest) (b :: tail) 0 (by simp)
      simpa using this
    have hn2 : (0 : Int) ≤ num * 10 + ((d - 48 : Nat) : Int) := by omega
    have hvcons : digitVal num (d :: rest) = digitVal (num * 10 + ((d - 48 : Nat) : Int)) rest :=
      digitVal_cons num d rest
    have hge := digitVal_ge rest (num * 10 + ((d - 48 : Nat) : Int)) hn2
    have hcast : ((d - 48 : Nat) : Int) = (d : Int) - 48 := by
      have := hd.1
      omega
    simp only [digitLoop, hbyte]
    rw [if_neg (by omega : ¬(58 ≤ d ∨ d < 48))]
    rw [if_neg (by simp only [I64MIN, I64MAX] at hmax ⊢; rw [hvcons] at hmax; omega :
      ¬(num * 10 < I64MIN ∨ I64MAX < num * 10))]
    rw [if_neg (by simp only [I64MIN, I64MAX] at hmax ⊢; rw [hvcons] at hmax; rw [← hcast]; omega :
      ¬(num * 10 + ((d : Int) - 48) < I64MIN ∨ I64MAX < num * 10 + ((d : Int) - 48)))]
    rw [if_pos (by simp at hlen; omega : front.length + 1 < USIZE)]
    have hprog : front ++ (d :: rest) ++ b :: tail = front ++ [d] ++ rest ++ b :: tail := by
      simp
    have harith : front.length + (d :: rest).length = (front ++ [d]).length + rest.length := by
      simp
      omega
    rw [← hcast, hprog, hvcons, harith, show front.length + 1 = (front ++ [d]).length by simp]
    exact ih (front ++ [d]) b tail (num * 10 + ((d - 48 : Nat) : Int)) f
      (fun x hx => hds x (List.mem_cons_of_mem d hx)) hb hn2 (by rw [← hvcons]; exact hmax)
      (by simp at hlen ⊢; omega) (by simp at hfuel ⊢; omega)

/-- The decimal byte representation of n consists of digit bytes, has at
least one byte and at most fuel bytes, and the digit accumulation over it
recovers n. -/
lemma decBytesAux_spec :
    ∀ (fuel n : Nat), n < fuel →
      (∀ d ∈ decBytesAux fuel n, 48 ≤ d ∧ d < 58)
      ∧ digitVal 0 (decBytesAux fuel n) = n
      ∧ 1 ≤ (decBytesAux fuel n).length ∧ (decBytesAux fuel n).length ≤ fuel := by
  intro fuel
  induction fuel with
  | zero => intro n h; omega
  | succ f ih =>
    intro n h
    by_cases h10 : n < 10
    · simp only [decBytesAux, if_pos h10]
      refine ⟨?_, ?_, by simp, by simp⟩
      · intro d hd
        simp at hd
        omega
      · rw [digitVal_cons, digitVal_nil]
        push_cast
        omega
    · have hdiv : n / 10 < f := by omega
      obtain ⟨ihd, ihv, ihl, ihu⟩ := ih (n / 10) hdiv
      simp only [decBytesAux, if_neg h10]
      refine ⟨?_, ?_, by simp, by simp; omega⟩
      · intro d hd
        rcases List.mem_append.mp hd with hx | hx
        · exact ihd d hx
        · simp at hx
          omega
      · unfold digitVal at ihv ⊢
        rw [List.foldl_append, ihv]
        simp only [List.foldl_cons, List.foldl_nil]
        push_cast
        omega

/-- C4: for i below 100 and for the boundary 999999, executing the digit
instruction at position 0 of a program that starts with the decimal bytes
of i followed by a non-digit byte pushes exactly one Int equal to i,
leaves pc on the last digit, and the trailing wrapping increment of the
interpreter loop then lands one position past the number. -/
theorem c4_digit_roundtrip :
    ∀ (i b : Nat), (i < 100 ∨ i = 999999) → (58 ≤ b ∨ b < 48) →
    ∀ (st aux : List Data) (inp tail : List Nat) (o : String),
      digit (mkCtx st aux 0 (decBytes i ++ b :: tail) inp o)
        = .next (mkCtx (.Int i :: st) aux ((decBytes i).length - 1) (decBytes i ++ b :: tail) inp o)
      ∧ wrapAdd1 ((decBytes i).length - 1) = (decBytes i).length := by
  intro i b hi hb st aux inp tail o
  obtain ⟨hds, hval, hlen1, hlenu⟩ := decBytesAux_spec (i + 1) i (by omega)
  have hds' : ∀ d ∈ decBytes i, 48 ≤ d ∧ d < 58 := hds
  have hval' : digitVal 0 (decBytes i) = (i : Int) := hval
  have hlen1' : 1 ≤ (decBytes i).length := hlen1
  have hlenu' : (decBytes i).length ≤ i + 1 := hlenu
  have hle : (i : Int) ≤ I64MAX := by
    simp only [I64MAX]
    rcases hi with h | rfl <;> omega
  have hrun := digitLoop_run (decBytes i) [] b tail 0 ((decBytes i ++ b :: tail).length + 2)
    hds' hb (le_refl 0) (by rw [hval']; exact hle)
    (by simp only [List.length_nil, Nat.zero_add, USIZE]; rcases hi with h | rfl <;> omega)
    (by simp; omega)
  rw [hval'] at hrun
  simp only [List.nil_append, List.length_nil, Nat.zero_add] at hrun
  have hws : wrapSub1 (decBytes i).length = (decBytes i).length - 1 := by
    unfold wrapSub1
    rw [if_neg (by omega)]
  rw [hws] at hrun
  constructor
  · unfold digit
    simp only [mkCtx]
    rw [hrun]
    rfl
  · have h1 : (decBytes i).length - 1 + 1 = (decBytes i).length := by omega
    unfold wrapAdd1
    rw [h1]
    apply Nat.mod_eq_of_lt
    simp only [USIZE]
    omega

/-- Witness for c4_digit_roundtrip: the two-digit number 23 followed by
the plus byte parses to the single Int 23 with pc left on the second
digit. -/
theorem c4_digit_roundtrip_witness :
    digit (mkCtx [] [] 0 (decBytes 23 ++ 43 :: []) [] "")
      = .next (mkCtx [.Int 23] [] ((decBytes 23).length - 1) (decBytes 23 ++ 43 :: []) [] "")
    ∧ wrapAdd1 ((decBytes 23).length - 1) = (decBytes 23).length :=
  c4_digit_roundtrip 23 43 (Or.inl (by omega)) (Or.inr (by omega)) [] [] [] [] ""

/-- The digit loop on the one-byte all-digit program "1", entered at any
position past the end of the program, never breaks out: it only ever runs
out of fuel or panics on the overflow of the checked pc increment. -/
lemma digitLoop_one_stuck :
    ∀ (fuel pc : Nat) (num : Int), 1 ≤ pc →
      digitLoop [49] fuel pc num = .fuelout ∨ digitLoop [49] fuel pc num = .panicked := by
  intro fuel
  induction fuel with
  | zero => intro pc num h; left; rfl
  | succ f ih =>
    intro pc num h
    have hb : opcode_at [49] pc = none := by
      unfold opcode_at
      exact List.getElem?_eq_none (by simpa using h)
    simp only [digitLoop, hb]
    split
    · exact ih pc.succ num (by omega)
    · right; rfl

/-- C5: the digit instruction is claimed to terminate for every program
and starting pc; on the one-byte program "1" (a digit run that extends to
the last byte, with no terminating non-digit) the scan never returns
normally: for every fuel bound the loop either exhausts the fuel or hits
the overflow panic of the checked pc increment — it runs past the end of
the program forever because the absent-byte case does not break the
loop. -/
theorem c5_digit_nontermination :
    (∀ fuel : Nat,
      digitLoop [49] fuel 0 0 = .fuelout ∨ digitLoop [49] fuel 0 0 = .panicked)
    ∧ digit (initCtx [49] []) = .fuelout := by
  constructor
  · intro fuel
    cases fuel with
    | zero => left; rfl
    | succ f =>
      have hstep : digitLoop [49] (f + 1) 0 0 = digitLoop [49] f 1 1 := by
        simp only [digitLoop, opcode_at]
        norm_num [I64MIN, I64MAX, USIZE]
      rw [hstep]
      exact digitLoop_one_stuck f 1 1 (le_refl 1)
  · decide

lemma wrapAdd1_max : wrapAdd1 (USIZE - 1) = 0 := by decide

lemma wrapSub1_succ (n : Nat) : wrapSub1 (n + 1) = n := by simp [wrapSub1]

lemma jumpBackLoop_succ (program : List Nat) (fuel pc : Nat) (cnt : Int) :
    jumpBackLoop program (fuel + 1) pc cnt =
      match opcode_at program pc with
      | none => .done pc
      | some b =>
        if b == 91 && cnt == 1 then .done (wrapSub1 pc)
        else if b == 91 then
          if cnt - 1 < I32MIN then .panicked
          else jumpBackLoop program fuel (wrapSub1 pc) (cnt - 1)
        else if b == 93 then
          if I32MAX < cnt + 1 then .panicked
          else jumpBackLoop program fuel (wrapSub1 pc) (cnt + 1)
        else jumpBackLoop program fuel (wrapSub1 pc) cnt := rfl

lemma jumpBackLoop_none (program : List Nat) (fuel pc : Nat) (cnt : Int)
    (hb : opcode_at program pc = none) :
    jumpBackLoop program (fuel + 1) pc cnt = .done pc := by
  simp only [jumpBackLoop_succ, hb]

lemma jumpBackLoop_stop (program : List Nat) (fuel pc : Nat) (cnt : Int) (b : Nat)
    (hb : opcode_at program pc = some b) (hyes : (b == 91 && cnt == 1) = true) :
    jumpBackLoop program (fuel + 1) pc cnt = .done (wrapSub1 pc) := by
  simp only [jumpBackLoop_succ, hb]
  rw [if_pos hyes]

/-- One non-stopping scan step whose (checked i32) counter update stays in
range: the loop recurses at the previous position with the updated
counter. -/
lemma jumpBackLoop_step (program : List Nat) (fuel pc : Nat) (cnt cnt' : Int) (b : Nat)
    (hb : opcode_at program pc = some b)
    (hno : (b == 91 && cnt == 1) = false)
    (hc : (if b == 91 then cnt - 1 else if b == 93 then cnt + 1 else cnt) = cnt')
    (hlo : I32MIN ≤ cnt') (hhi : cnt' ≤ I32MAX) :
    jumpBackLoop program (fuel + 1) pc cnt = jumpBackLoop program fuel (wrapSub1 pc) cnt' := by
  simp only [jumpBackLoop_succ, hb]
  rw [if_neg (by simp [hno])]
  by_cases h91 : (b == 91) = true
  · rw [if_pos h91]
    rw [if_pos h91] at hc
    rw [hc, if_neg (by omega)]
  · rw [if_neg h91]
    rw [if_neg h91] at hc
    by_cases h93 : (b == 93) = true
    · rw [if_pos h93]
      rw [if_pos h93] at hc
      rw [hc, if_neg (by omega)]
    · rw [if_neg h93]
      rw [if_neg h93] at hc
      rw [hc]

/-- A panic inside the backward scan loop is a panic of the jump_back
instruction. -/
lemma jump_back_eq_panicked (c : Ctx) (h : jumpBackLoop c.program (c.pc + 2) c.pc 0 = .panicked) :
    jump_back c = .panicked := by
  unfold jump_back
  rw [h]

/-- Dispatching opcode 93 (the close bracket) through Vm::run_op wraps the
pc left by jump_back by the trailing wrapping increment. -/
lemma run_op_close_bracket (c c' : Ctx) (h : jump_back c = .next c') :
    run_op c 93 = .next { c' with pc := wrapAdd1 c'.pc } := by
  unfold run_op
  rw [show instrFor 93 = some jump_back from rfl]
  simp only [h]

/-- Scanning backward through a properly nested body of depth d with the
jump_back loop, entered at the rightmost byte of the body with a counter
of at least 1 whose peak excursion cnt + d stays within i32 range,
consumes exactly the body (one fuel per byte) without panicking, restores
the counter, and continues one position to the left of the body. -/
lemma jumpBackLoop_balanced :
    ∀ {body : List Nat} {d : Nat}, Balanced body d →
    ∀ (l : Nat) (pre rest : List Nat) (cnt : Int) (fuel : Nat),
      pre.length = l + 1 → 1 ≤ cnt → cnt + (d : Int) ≤ I32MAX →
      jumpBackLoop (pre ++ body ++ rest) (body.length + fuel) (l + body.length) cnt
        = jumpBackLoop (pre ++ body ++ rest) fuel l cnt := by
  intro body d hb
  induction hb with
  | nil =>
    intro l pre rest cnt fuel hl hc hd
    simp only [List.length_nil, Nat.zero_add, Nat.add_zero]
  | one b hb91 hb93 =>
    intro l pre rest cnt fuel hl hc hd
    have hbyte : opcode_at (pre ++ [b] ++ rest) (l + 1) = some b := by
      have h := opcode_at_append pre [b] rest 0 (by simp)
      rw [show pre.length + 0 = l + 1 by omega] at h
      rw [h]
      rfl
    have h91 : (b == 91) = false := beq_eq_false_iff_ne.mpr hb91
    have h93 : (b == 93) = false := beq_eq_false_iff_ne.mpr hb93
    simp only [List.length_singleton]
    rw [show (1 : Nat) + fuel = fuel + 1 by omega]
    rw [jumpBackLoop_step _ fuel (l + 1) cnt cnt b hbyte
      (by rw [h91]; rfl) (by rw [h91, h93]; rfl)
      (by simp only [I32MIN]; omega) (by omega)]
    rw [wrapSub1_succ]
  | pair hxs ih =>
    rename_i xs d'
    intro l pre rest cnt fuel hl hc hd
    push_cast at hd
    have hlen : (91 :: (xs ++ [93])).length = xs.length + 2 := by simp
    rw [hlen]
    rw [show xs.length + 2 + fuel = (xs.length + (1 + fuel)) + 1 by omega]
    have hbyte1 : opcode_at (pre ++ (91 :: (xs ++ [93])) ++ rest) (l + (xs.length + 2))
        = some 93 := by
      have h := opcode_at_append pre (91 :: (xs ++ [93])) rest (xs.length + 1) (by simp)
      rw [show pre.length + (xs.length + 1) = l + (xs.length + 2) by omega] at h
      rw [h, List.getElem?_cons_succ, List.getElem?_append_right (le_refl _)]
      simp
    rw [jumpBackLoop_step _ _ _ cnt (cnt + 1) 93 hbyte1 rfl rfl
      (by simp only [I32MIN]; omega) (by omega)]
    rw [show wrapSub1 (l + (xs.length + 2)) = (l + 1) + xs.length by
      rw [show l + (xs.length + 2) = (l + 1 + xs.length) + 1 by omega, wrapSub1_succ]]
    have hih := ih (l + 1) (pre ++ [91]) (93 :: rest) (cnt + 1) (1 + fuel)
      (by simp only [List.length_append, List.length_singleton, hl]) (by omega) (by omega)
    rw [show (pre ++ [91]) ++ xs ++ (93 :: rest) = pre ++ (91 :: (xs ++ [93])) ++ rest by simp]
      at hih
    rw [hih]
    rw [show (1 : Nat) + fuel = fuel + 1 by omega]
    have hbyte0 : opcode_at (pre ++ (91 :: (xs ++ [93])) ++ rest) (l + 1) = some 91 := by
      have h := opcode_at_append pre (91 :: (xs ++ [93])) rest 0 (by simp)
      rw [show pre.length + 0 = l + 1 by omega] at h
      rw [h]
      exact List.getElem?_cons_zero
    have hne1 : ((cnt + 1 : Int) == 1) = false := beq_eq_false_iff_ne.mpr (by omega)
    rw [jumpBackLoop_step _ fuel (l + 1) (cnt + 1) cnt 91 hbyte0
      (by rw [hne1]; rfl) (by show cnt + 1 - 1 = cnt; omega)
      (by simp only [I32MIN]; omega) (by omega)]
    rw [wrapSub1_succ]
  | append hxs hys ihx ihy =>
    rename_i xs ys d₁ d₂
    intro l pre rest cnt fuel hl hc hd
    have hm1 : d₁ ≤ max d₁ d₂ := Nat.le_max_left d₁ d₂
    have hm2 : d₂ ≤ max d₁ d₂ := Nat.le_max_right d₁ d₂
    simp only [List.length_append]
    rw [show xs.length + ys.length + fuel = ys.length + (xs.length + fuel) by omega]
    rw [show l + (xs.length + ys.length) = (l + xs.length) + ys.length by omega]
    rw [show pre ++ (xs ++ ys) ++ rest = (pre ++ xs) ++ ys ++ rest by simp]
    rw [ihy (l + xs.length) (pre ++ xs) rest cnt (xs.length + fuel)
      (by simp only [List.length_append, hl]; omega) hc (by omega)]
    have h2 := ihx l pre (ys ++ rest) cnt fuel hl hc (by omega)
    rw [show pre ++ xs ++ (ys ++ rest) = (pre ++ xs) ++ ys ++ rest by simp] at h2
    rw [h2]

/-- C1 (amended): executing the close bracket at the end of a program
made of an open bracket at address 0, a properly nested body, and the
close bracket, leaves pc at the wrapped value usize::MAX (one position
before the matching open bracket at 0), so the trailing wrapping
increment of the interpreter loop resumes the fetch at address 0 — the
outermost open bracket itself, not address 1 — for every nesting depth d
with d + 1 within i32 range (the scan counter is an inferred i32 that
reaches d + 1; depths 0, 1 and 3 are far below the bound, and beyond it
the checked counter increment panics instead of completing). -/
theorem c1_close_bracket_resumes_at_open :
    ∀ (body : List Nat) (d : Nat), Balanced body d → (d : Int) + 1 ≤ I32MAX →
    ∀ (st aux : List Data) (inp : List Nat) (o : String),
      jump_back (mkCtx st aux (body.length + 1) (91 :: (body ++ [93])) inp o)
        = .next (mkCtx st aux (USIZE - 1) (91 :: (body ++ [93])) inp o)
      ∧ run_op (mkCtx st aux (body.length + 1) (91 :: (body ++ [93])) inp o) 93
        = .next (mkCtx st aux 0 (91 :: (body ++ [93])) inp o) := by
  intro body d hb hd st aux inp o
  have hbyte1 : opcode_at (91 :: (body ++ [93])) (body.length + 1) = some 93 := by
    rw [opcode_at, List.getElem?_cons_succ, List.getElem?_append_right (le_refl _)]
    simp
  have hbyte0 : opcode_at (91 :: (body ++ [93])) 0 = some 91 := by
    rw [opcode_at]
    exact List.getElem?_cons_zero
  have hscan : jumpBackLoop (91 :: (body ++ [93])) (body.length + 1 + 2) (body.length + 1) 0
      = .done (USIZE - 1) := by
    rw [show body.length + 1 + 2 = (body.length + 2) + 1 by omega]
    rw [jumpBackLoop_step _ (body.length + 2) (body.length + 1) 0 1 93 hbyte1 rfl rfl
      (by decide) (by decide)]
    rw [wrapSub1_succ]
    have hbal := jumpBackLoop_balanced hb 0 [91] [93] 1 2 rfl (by omega) (by omega)
    rw [show ([91] : List Nat) ++ body ++ [93] = 91 :: (body ++ [93]) from rfl] at hbal
    simp only [Nat.zero_add] at hbal
    rw [hbal]
    rw [show (2 : Nat) = 1 + 1 from rfl]
    rw [jumpBackLoop_stop _ 1 0 1 91 hbyte0 rfl]
    rw [show wrapSub1 0 = USIZE - 1 from rfl]
  have hjb : jump_back (mkCtx st aux (body.length + 1) (91 :: (body ++ [93])) inp o)
      = .next (mkCtx st aux (USIZE - 1) (91 :: (body ++ [93])) inp o) := by
    unfold jump_back
    simp only [mkCtx]
    rw [hscan]
  refine ⟨hjb, ?_⟩
  rw [run_op_close_bracket _ _ hjb]
  simp only [mkCtx]
  rw [wrapAdd1_max]

/-- Witness for c1_close_bracket_resumes_at_open: the two-byte program of
one open and one close bracket (empty body, nesting depth 0). -/
theorem c1_close_bracket_resumes_at_open_witness :
    jump_back (mkCtx [] [] 1 [91, 93] [] "") = .next (mkCtx [] [] (USIZE - 1) [91, 93] [] "")
    ∧ run_op (mkCtx [] [] 1 [91, 93] [] "") 93 = .next (mkCtx [] [] 0 [91, 93] [] "") :=
  c1_close_bracket_resumes_at_open [] 0 Balanced.nil (by decide) [] [] [] ""

/-- C1 counterexample: on the program of one open bracket at address 0
and its close bracket at address 1 (zero nested levels), executing the
close bracket resumes the fetch at address 0, not at address 1 as the
claim states. -/
theorem c1_counterexample :
    run_op (mkCtx [] [] 1 [91, 93] [] "") 93 = .next (mkCtx [] [] 0 [91, 93] [] "")
    ∧ decide (run_op (mkCtx [] [] 1 [91, 93] [] "") 93
        = .next (mkCtx [] [] 1 [91, 93] [] "")) = false := by
  refine ⟨by decide, by decide⟩

lemma not_eq_true_to_false (b : Bool) (h : (!b) = true) : b = false := by
  rcases b
  · rfl
  · simp at h

lemma hitAt_false_elim (prog : List Nat) (pc : Nat) (cnt : Int) (b : Nat)
    (hb : opcode_at prog pc = some b) (h : hitAt prog pc cnt = false) :
    (b == 91 && cnt == 1) = false := by
  unfold hitAt at h
  simp only [hb] at h
  exact h

/-- The scan counter moves by at most one per step. -/
lemma stepCnt_bound (prog : List Nat) (pc : Nat) (cnt : Int) :
    cnt - 1 ≤ stepCnt prog pc cnt ∧ stepCnt prog pc cnt ≤ cnt + 1 := by
  rcases h : opcode_at prog pc with _ | b
  · simp only [stepCnt, h]
    omega
  · simp only [stepCnt, h]
    split_ifs <;> omega

/-- When the backward scan never meets its stop condition on the way from
pc down to position 0 (every byte down to the start is present) and the
scan is short enough that its i32 counter cannot leave range (at most one
step per position), the jump_back loop runs off the front of the program:
the final prev wraps pc to usize::MAX, the byte lookup there is absent,
and the loop stops with pc = usize::MAX. -/
lemma jumpBackLoop_noHit :
    ∀ (prog : List Nat) (pc : Nat) (cnt : Int), pc < prog.length → prog.length < USIZE →
      cnt + ((pc : Int) + 1) ≤ I32MAX → I32MIN ≤ cnt - ((pc : Int) + 1) →
      noHit prog pc cnt = true →
      jumpBackLoop prog (pc + 2) pc cnt = .done (USIZE - 1) := by
  intro prog pc
  induction pc with
  | zero =>
    intro cnt h1 h2 hhi hlo h3
    obtain ⟨b, hb⟩ : ∃ b, opcode_at prog 0 = some b := ⟨_, List.getElem?_eq_getElem h1⟩
    have hhit : (b == 91 && cnt == 1) = false := by
      simp only [noHit] at h3
      exact hitAt_false_elim prog 0 cnt b hb (not_eq_true_to_false _ h3)
    obtain ⟨hs1, hs2⟩ := stepCnt_bound prog 0 cnt
    rw [show (0 : Nat) + 2 = 1 + 1 from rfl]
    rw [jumpBackLoop_step _ 1 0 cnt (stepCnt prog 0 cnt) b hb hhit
      (by unfold stepCnt; rw [hb]) (by omega) (by omega)]
    rw [show wrapSub1 0 = USIZE - 1 from rfl]
    have hend : opcode_at prog (USIZE - 1) = none := by
      unfold opcode_at
      apply List.getElem?_eq_none
      simp only [USIZE] at h2 ⊢
      omega
    exact jumpBackLoop_none prog 0 (USIZE - 1) _ hend
  | succ p ih =>
    intro cnt h1 h2 hhi hlo h3
    obtain ⟨b, hb⟩ : ∃ b, opcode_at prog (p + 1) = some b := ⟨_, List.getElem?_eq_getElem h1⟩
    simp only [noHit, Bool.and_eq_true] at h3
    obtain ⟨hh, hrest⟩ := h3
    have hhit : (b == 91 && cnt == 1) = false :=
      hitAt_false_elim prog (p + 1) cnt b hb (not_eq_true_to_false _ hh)
    obtain ⟨hs1, hs2⟩ := stepCnt_bound prog (p + 1) cnt
    push_cast at hhi hlo
    rw [show p + 1 + 2 = (p + 2) + 1 by omega]
    rw [jumpBackLoop_step _ (p + 2) (p + 1) cnt (stepCnt prog (p + 1) cnt) b hb hhit
      (by unfold stepCnt; rw [hb]) (by omega) (by omega)]
    rw [wrapSub1_succ]
    exact ih (stepCnt prog (p + 1) cnt) (by omega) h2 (by omega) (by omega) hrest

/-- C9 (amended): executing the close bracket with no matching open
bracket (the backward scan reaches the start of the program without ever
seeing an open bracket with counter exactly 1), for a scan short enough
that the i32 nesting counter cannot overflow (pc + 1 within i32 range):
pc wraps to usize::MAX, the byte lookup there is absent so the scan
stops, and the interpreter loop's trailing wrapping increment brings pc
back to 0 — execution silently resumes at address 0 instead of faulting
or halting. -/
theorem c9_unmatched_close_restarts_at_zero :
    ∀ (prog : List Nat) (pc : Nat) (st aux : List Data) (inp : List Nat) (o : String),
      pc < prog.length → prog.length < USIZE → (pc : Int) + 1 ≤ I32MAX →
      noHit prog pc 0 = true →
      jump_back (mkCtx st aux pc prog inp o) = .next (mkCtx st aux (USIZE - 1) prog inp o)
      ∧ run_op (mkCtx st aux pc prog inp o) 93 = .next (mkCtx st aux 0 prog inp o) := by
  intro prog pc st aux inp o h1 h2 hspan h3
  have hjb : jump_back (mkCtx st aux pc prog inp o)
      = .next (mkCtx st aux (USIZE - 1) prog inp o) := by
    unfold jump_back
    simp only [mkCtx]
    rw [jumpBackLoop_noHit prog pc 0 h1 h2 (by omega)
      (by simp only [I32MIN, I32MAX] at hspan ⊢; omega) h3]
  refine ⟨hjb, ?_⟩
  rw [run_op_close_bracket _ _ hjb]
  simp only [mkCtx]
  rw [wrapAdd1_max]

/-- Witness for c9_unmatched_close_restarts_at_zero: the one-byte program
consisting of a single close bracket, executed at address 0. -/
theorem c9_unmatched_close_restarts_at_zero_witness :
    jump_back (mkCtx [] [] 0 [93] [] "") = .next (mkCtx [] [] (USIZE - 1) [93] [] "")
    ∧ run_op (mkCtx [] [] 0 [93] [] "") 93 = .next (mkCtx [] [] 0 [93] [] "") :=
  c9_unmatched_close_restarts_at_zero [93] 0 [] [] [] "" (by decide) (by decide) (by decide)
    (by decide)

/-- On a program of close brackets only, the backward scan increments its
i32 counter at every position; once enough close brackets remain below
the starting position (counter headroom exhausted), the checked
`cnt += 1` overflows i32::MAX and the scan panics. -/
lemma jumpBackLoop_all_close_panics :
    ∀ (pc n : Nat) (cnt : Int), pc < n → 0 ≤ cnt → I32MAX ≤ cnt + (pc : Int) →
      jumpBackLoop (List.replicate n 93) (pc + 2) pc cnt = .panicked := by
  intro pc
  induction pc with
  | zero =>
    intro n cnt hn h0 hbound
    have hb : opcode_at (List.replicate n 93) 0 = some 93 := by
      unfold opcode_at
      exact List.getElem?_replicate_of_lt hn
    rw [show (0 : Nat) + 2 = 1 + 1 from rfl]
    simp only [jumpBackLoop_succ, hb]
    rw [if_neg (by simp)]
    rw [if_neg (by simp)]
    rw [if_pos (show ((93 : Nat) == 93) = true from rfl)]
    rw [if_pos (by omega : I32MAX < cnt + 1)]
  | succ p ih =>
    intro n cnt hn h0 hbound
    have hb : opcode_at (List.replicate n 93) (p + 1) = some 93 := by
      unfold opcode_at
      exact List.getElem?_replicate_of_lt hn
    push_cast at hbound
    rw [show p + 1 + 2 = (p + 2) + 1 by omega]
    simp only [jumpBackLoop_succ, hb]
    rw [if_neg (by simp)]
    rw [if_neg (by simp)]
    rw [if_pos (show ((93 : Nat) == 93) = true from rfl)]
    by_cases hov : I32MAX < cnt + 1
    · rw [if_pos hov]
    · rw [if_neg hov]
      rw [wrapSub1_succ]
      exact ih n (cnt + 1) (by omega) (by omega) (by omega)

/-- The scan stop condition never holds on a program of close brackets
only, whatever the counter: noHit is identically true there. -/
lemma noHit_replicate_close :
    ∀ (pc : Nat) (n : Nat) (cnt : Int), noHit (List.replicate n 93) pc cnt = true := by
  have hfalse : ∀ (pc n : Nat) (cnt : Int), hitAt (List.replicate n 93) pc cnt = false := by
    intro pc n cnt
    rcases h : opcode_at (List.replicate n 93) pc with _ | b
    · simp only [hitAt, h]
    · have hb : b = 93 := by
        unfold opcode_at at h
        rw [List.getElem?_replicate] at h
        split at h
        · exact (Option.some.inj h).symm
        · exact absurd h (by simp)
      simp only [hitAt, h, hb]
      rfl
  intro pc
  induction pc with
  | zero =>
    intro n cnt
    simp only [noHit, hfalse]
    rfl
  | succ p ih =>
    intro n cnt
    simp only [noHit, hfalse, ih]
    rfl

/-- C9 counterexample: on the program of 2^31 + 1 close brackets,
executing the close bracket at address 2^31 satisfies the claim premise
(the backward scan reaches the start without the counter ever being
exactly 1 at an open bracket — there are none), yet in an
overflow-checked build the scan panics when its i32 counter would pass
i32::MAX, instead of silently restarting execution at address 0. -/
theorem c9_counterexample :
    noHit (List.replicate 2147483649 93) 2147483648 0 = true
    ∧ jump_back (mkCtx [] [] 2147483648 (List.replicate 2147483649 93) [] "")
        = .panicked := by
  constructor
  · exact noHit_replicate_close 2147483648 2147483649 0
  · exact jump_back_eq_panicked _ (jumpBackLoop_all_close_panics 2147483648 2147483649 0
      (by norm_num) (le_refl 0) (by simp only [I32MAX]; norm_num))

end Chasement
